import Mathlib

/-!
Shallow embedding of `src/tree/values/nodes/TextContainer.js`: a text with
inline formatting elements, whose constructor clamps at most one
out-of-bounds position per attribute (`startIndex`, `endIndex`) to the
length of the text, emitting a warning message for each correction.
-/

/-- Which position attribute a correction pass works on; mirrors the
`"startIndex" | "endIndex"` string parameter of
`_constrainFormatElementPositionsToEnd`. -/
inductive Position where
  | startIndex
  | endIndex
deriving DecidableEq

/-- The string that the JS code interpolates for the position parameter. -/
def Position.name : Position → String
  | Position.startIndex => "startIndex"
  | Position.endIndex => "endIndex"

/-- The position attribute other than the given one. -/
def Position.other : Position → Position
  | Position.startIndex => Position.endIndex
  | Position.endIndex => Position.startIndex

/-- Modelled from the spec: the FormattingSpan shape produced by the upstream
parser (its class is not part of the source under review). `TextContainer.js`
reads the fields `startIndex`, `endIndex` (numeric offsets, compared and
overwritten) and `tag` (used in the warning message); `attributes` is opaque
and modelled as an association list. Offsets are JS numbers that may be
negative, hence `Int`. -/
structure FormattingElement where
  tag : String
  startIndex : Int
  endIndex : Int
  attributes : List (String × String)
deriving DecidableEq

/-- Dynamic field read `format[ position ]` from the JS source. -/
def FormattingElement.pos (f : FormattingElement) : Position → Int
  | Position.startIndex => f.startIndex
  | Position.endIndex => f.endIndex

/-- Dynamic field write `elem[ position ] = v` from the JS source. -/
def FormattingElement.setPos (f : FormattingElement) : Position → Int → FormattingElement
  | Position.startIndex, v => { f with startIndex := v }
  | Position.endIndex, v => { f with endIndex := v }

/-- The `console.warn` message of `_constrainFormatElementPositionsToEnd`:
`\x27${elem.tag}\x27 element\x27s ${position} position larger than text. It has been
set to the end of the text instead.` -/
def warnMessage (tag : String) (position : Position) : String :=
  "\x27" ++ tag ++ "\x27 element\x27s " ++ position.name ++
    " position larger than text. It has been set to the end of the text instead."

/-- One pass of `_constrainFormatElementPositionsToEnd`: find the first
formatting element whose value at `position` is strictly greater than the
text length, set that value to the text length, and produce the warning
message. The JS mutates the array in place and warns to the console; here the
pass returns the updated list together with the optional message. -/
def constrainFormatElementPositionsToEnd (textLength : Nat) (position : Position) :
    List FormattingElement → List FormattingElement × Option String
  | [] => ([], none)
  | f :: rest =>
    if f.pos position > (textLength : Int) then
      (f.setPos position (textLength : Int) :: rest, some (warnMessage f.tag position))
    else
      let r := constrainFormatElementPositionsToEnd textLength position rest
      (f :: r.1, r.2)

/-- The `TextContainer` entity: plain text plus formatting elements. -/
structure TextContainer where
  text : String
  formatting : List FormattingElement
deriving DecidableEq

/-- The `TextContainer` constructor: stores `text` and `formatting`, then runs
the constraining pass for `"startIndex"` and then for `"endIndex"`. The
constructed container is returned together with the list of warning messages
emitted (start-pass warning first), modelling the `console.warn` side
effect. -/
def TextContainer.make (text : String) (formatting : List FormattingElement) :
    TextContainer × List String :=
  let s := constrainFormatElementPositionsToEnd text.length Position.startIndex formatting
  let e := constrainFormatElementPositionsToEnd text.length Position.endIndex s.1
  (⟨text, e.1⟩, s.2.toList ++ e.2.toList)

/-- Boolean form of the predicate the JS `find` callback tests:
`format[ position ] > this.text.length`. -/
def offends (textLength : Nat) (position : Position) (f : FormattingElement) : Bool :=
  decide (f.pos position > (textLength : Int))

/-- Index of the first element satisfying `p`, used to state which element the
JS `Array.prototype.find` locates. -/
def firstIdx? {α : Type} (p : α → Bool) : List α → Option Nat
  | [] => none
  | x :: xs => if p x then some 0 else (firstIdx? p xs).map (fun n => n + 1)

/-- Clamp the first value exceeding `textLength` down to `textLength`, leaving
every other value alone: the action of one constraining pass on the sequence
of values of a single position attribute. -/
def clampFirst (textLength : Nat) : List Int → List Int
  | [] => []
  | v :: vs =>
    if v > (textLength : Int) then (textLength : Int) :: vs
    else v :: clampFirst textLength vs

/-! ### Basic facts about the embedded operations -/

@[simp]
theorem FormattingElement.pos_setPos_self (f : FormattingElement) (p : Position) (v : Int) :
    (f.setPos p v).pos p = v := by
  cases p <;> rfl

@[simp]
theorem FormattingElement.pos_setPos_other (f : FormattingElement) (p : Position) (v : Int) :
    (f.setPos p v).pos p.other = f.pos p.other := by
  cases p <;> rfl

@[simp]
theorem FormattingElement.tag_setPos (f : FormattingElement) (p : Position) (v : Int) :
    (f.setPos p v).tag = f.tag := by
  cases p <;> rfl

@[simp]
theorem FormattingElement.attributes_setPos (f : FormattingElement) (p : Position) (v : Int) :
    (f.setPos p v).attributes = f.attributes := by
  cases p <;> rfl

@[simp]
theorem Position.other_other (p : Position) : p.other.other = p := by
  cases p <;> rfl

theorem offends_iff (L : Nat) (position : Position) (f : FormattingElement) :
    offends L position f = true ↔ f.pos position > (L : Int) := by
  simp [offends]

theorem firstIdx?_eq_none_iff {α : Type} (p : α → Bool) :
    ∀ xs : List α, firstIdx? p xs = none ↔ ∀ x ∈ xs, p x = false := by
  intro xs
  induction xs with
  | nil => simp [firstIdx?]
  | cons x xs ih =>
    by_cases hx : p x = true
    · simp [firstIdx?, hx]
    · simp only [Bool.not_eq_true] at hx
      simp [firstIdx?, hx, ih]

theorem firstIdx?_spec {α : Type} (p : α → Bool) :
    ∀ (xs : List α) (i : Nat), firstIdx? p xs = some i →
      (∃ f, xs[i]? = some f ∧ p f = true) ∧
        ∀ j, j < i → ∀ g, xs[j]? = some g → p g = false := by
  intro xs
  induction xs with
  | nil => intro i h; simp [firstIdx?] at h
  | cons x xs ih =>
    intro i h
    by_cases hx : p x = true
    · simp [firstIdx?, hx] at h
      subst h
      exact ⟨⟨x, by simp, hx⟩, fun j hj => by omega⟩
    · simp only [Bool.not_eq_true] at hx
      simp [firstIdx?, hx] at h
      obtain ⟨n, hn, rfl⟩ := h
      obtain ⟨⟨f, hf, hpf⟩, hmin⟩ := ih n hn
      refine ⟨⟨f, by simpa using hf, hpf⟩, ?_⟩
      intro j hj g hg
      cases j with
      | zero =>
        simp at hg
        subst hg
        exact hx
      | succ j' => exact hmin j' (by omega) g (by simpa using hg)

theorem exists_firstIdx?_le {α : Type} (p : α → Bool) :
    ∀ (xs : List α) (i : Nat) (f : α), xs[i]? = some f → p f = true →
      ∃ j, firstIdx? p xs = some j ∧ j ≤ i := by
  intro xs
  induction xs with
  | nil => intro i f h; simp at h
  | cons x xs ih =>
    intro i f h hp
    by_cases hx : p x = true
    · exact ⟨0, by simp [firstIdx?, hx], Nat.zero_le i⟩
    · simp only [Bool.not_eq_true] at hx
      cases i with
      | zero =>
        simp at h
        subst h
        simp [hp] at hx
      | succ i' =>
        simp at h
        obtain ⟨j, hj, hle⟩ := ih i' f h hp
        exact ⟨j + 1, by simp [firstIdx?, hx, hj], by omega⟩

theorem firstIdx?_congr {α β : Type} (p : α → Bool) (q : β → Bool) :
    ∀ (xs : List α) (ys : List β), xs.map p = ys.map q →
      firstIdx? p xs = firstIdx? q ys := by
  intro xs
  induction xs with
  | nil =>
    intro ys h
    cases ys with
    | nil => rfl
    | cons y ys => simp at h
  | cons x xs ih =>
    intro ys h
    cases ys with
    | nil => simp at h
    | cons y ys =>
      simp only [List.map_cons, List.cons.injEq] at h
      obtain ⟨h1, h2⟩ := h
      simp only [firstIdx?, h1, ih ys h2]

/-! ### Characterization of one constraining pass -/

theorem constrain_length (L : Nat) (position : Position) :
    ∀ fmt : List FormattingElement,
      ((constrainFormatElementPositionsToEnd L position fmt).1).length = fmt.length := by
  intro fmt
  induction fmt with
  | nil => rfl
  | cons f rest ih =>
    by_cases hf : f.pos position > (L : Int)
    · simp [constrainFormatElementPositionsToEnd, hf]
    · simp [constrainFormatElementPositionsToEnd, hf, ih]

theorem constrain_of_none (L : Nat) (position : Position) :
    ∀ fmt : List FormattingElement, firstIdx? (offends L position) fmt = none →
      constrainFormatElementPositionsToEnd L position fmt = (fmt, none) := by
  intro fmt
  induction fmt with
  | nil => intro _; rfl
  | cons f rest ih =>
    intro h
    rw [firstIdx?_eq_none_iff] at h
    have hf : offends L position f = false := h f (by simp)
    have hrest : firstIdx? (offends L position) rest = none := by
      rw [firstIdx?_eq_none_iff]
      intro x hx
      exact h x (by simp [hx])
    have hf2 : ¬ f.pos position > (L : Int) := by simpa [offends] using hf
    simp [constrainFormatElementPositionsToEnd, hf2, ih hrest]

theorem constrain_of_some (L : Nat) (position : Position) :
    ∀ (fmt : List FormattingElement) (i : Nat) (f : FormattingElement),
      firstIdx? (offends L position) fmt = some i → fmt[i]? = some f →
      constrainFormatElementPositionsToEnd L position fmt =
        (fmt.set i (f.setPos position (L : Int)), some (warnMessage f.tag position)) := by
  intro fmt
  induction fmt with
  | nil => intro i f h; simp [firstIdx?] at h
  | cons g rest ih =>
    intro i f h hget
    by_cases hg : offends L position g = true
    · simp [firstIdx?, hg] at h
      subst h
      simp at hget
      subst hget
      have hg2 : g.pos position > (L : Int) := by simpa [offends] using hg
      simp [constrainFormatElementPositionsToEnd, hg2]
    · simp only [Bool.not_eq_true] at hg
      simp [firstIdx?, hg] at h
      obtain ⟨n, hn, rfl⟩ := h
      simp at hget
      have hg2 : ¬ g.pos position > (L : Int) := by simpa [offends] using hg
      simp [constrainFormatElementPositionsToEnd, hg2, ih n f hn hget]

theorem constrain_map_pos_other (L : Nat) (position : Position) :
    ∀ fmt : List FormattingElement,
      ((constrainFormatElementPositionsToEnd L position fmt).1).map
          (fun f => f.pos position.other) =
        fmt.map (fun f => f.pos position.other) := by
  intro fmt
  induction fmt with
  | nil => rfl
  | cons f rest ih =>
    by_cases hf : f.pos position > (L : Int)
    · simp [constrainFormatElementPositionsToEnd, hf]
    · simp [constrainFormatElementPositionsToEnd, hf, ih]

theorem constrain_map_tag (L : Nat) (position : Position) :
    ∀ fmt : List FormattingElement,
      ((constrainFormatElementPositionsToEnd L position fmt).1).map
          FormattingElement.tag =
        fmt.map FormattingElement.tag := by
  intro fmt
  induction fmt with
  | nil => rfl
  | cons f rest ih =>
    by_cases hf : f.pos position > (L : Int)
    · simp [constrainFormatElementPositionsToEnd, hf]
    · simp [constrainFormatElementPositionsToEnd, hf, ih]

theorem constrain_map_attributes (L : Nat) (position : Position) :
    ∀ fmt : List FormattingElement,
      ((constrainFormatElementPositionsToEnd L position fmt).1).map
          FormattingElement.attributes =
        fmt.map FormattingElement.attributes := by
  intro fmt
  induction fmt with
  | nil => rfl
  | cons f rest ih =>
    by_cases hf : f.pos position > (L : Int)
    · simp [constrainFormatElementPositionsToEnd, hf]
    · simp [constrainFormatElementPositionsToEnd, hf, ih]

theorem constrain_map_pos_self (L : Nat) (position : Position) :
    ∀ fmt : List FormattingElement,
      ((constrainFormatElementPositionsToEnd L position fmt).1).map
          (fun f => f.pos position) =
        clampFirst L (fmt.map (fun f => f.pos position)) := by
  intro fmt
  induction fmt with
  | nil => rfl
  | cons f rest ih =>
    by_cases hf : f.pos position > (L : Int)
    · simp [constrainFormatElementPositionsToEnd, clampFirst, hf]
    · simp [constrainFormatElementPositionsToEnd, clampFirst, hf, ih]

theorem firstIdx?_offends_constrain_other (L : Nat) (position : Position)
    (fmt : List FormattingElement) :
    firstIdx? (offends L position.other)
        ((constrainFormatElementPositionsToEnd L position fmt).1) =
      firstIdx? (offends L position.other) fmt := by
  apply firstIdx?_congr
  have h := constrain_map_pos_other L position fmt
  have hcomp : offends L position.other =
      (fun v : Int => decide (v > (L : Int))) ∘ (fun f => f.pos position.other) := rfl
  rw [hcomp, ← List.map_map, h, List.map_map]

/-! ### Characterization of the full constructor -/

theorem make_eq_of (text : String) (fmt fmt1 fmt2 : List FormattingElement)
    (d1 d2 : Option String)
    (h1 : constrainFormatElementPositionsToEnd text.length Position.startIndex fmt =
      (fmt1, d1))
    (h2 : constrainFormatElementPositionsToEnd text.length Position.endIndex fmt1 =
      (fmt2, d2)) :
    TextContainer.make text fmt = (⟨text, fmt2⟩, d1.toList ++ d2.toList) := by
  simp [TextContainer.make, h1, h2]

theorem make_text (text : String) (fmt : List FormattingElement) :
    (TextContainer.make text fmt).1.text = text := rfl

theorem make_formatting_length (text : String) (fmt : List FormattingElement) :
    ((TextContainer.make text fmt).1.formatting).length = fmt.length := by
  simp [TextContainer.make, constrain_length]

theorem find?_eq_firstIdx? {α : Type} (p : α → Bool) :
    ∀ xs : List α, xs.find? p = (firstIdx? p xs).bind (fun i => xs[i]?) := by
  intro xs
  induction xs with
  | nil => rfl
  | cons x xs ih =>
    by_cases hx : p x = true
    · simp [List.find?_cons_of_pos _ hx, firstIdx?, hx]
    · have hx2 : ¬ p x = true := hx
      simp only [Bool.not_eq_true] at hx
      rcases h : firstIdx? p xs with _ | n
      · rw [h] at ih
        simp [List.find?_cons_of_neg _ hx2, firstIdx?, hx, h, ih]
      · rw [h] at ih
        simp [List.find?_cons_of_neg _ hx2, firstIdx?, hx, h, ih]

theorem make_formatting_getElem? (text : String) (fmt : List FormattingElement) (n : Nat) :
    ((TextContainer.make text fmt).1.formatting)[n]? =
      (fmt[n]?).map (fun f =>
        if firstIdx? (offends text.length Position.endIndex) fmt = some n then
          (if firstIdx? (offends text.length Position.startIndex) fmt = some n then
            f.setPos Position.startIndex (text.length : Int)
          else f).setPos Position.endIndex (text.length : Int)
        else
          (if firstIdx? (offends text.length Position.startIndex) fmt = some n then
            f.setPos Position.startIndex (text.length : Int)
          else f)) := by
  rcases hs : firstIdx? (offends text.length Position.startIndex) fmt with _ | i
  · rcases he : firstIdx? (offends text.length Position.endIndex) fmt with _ | j
    · have h1 := constrain_of_none text.length Position.startIndex fmt hs
      have h2 := constrain_of_none text.length Position.endIndex fmt he
      rw [make_eq_of text fmt fmt fmt none none h1 h2]
      simp
    · obtain ⟨⟨g, hg, hpg⟩, -⟩ := firstIdx?_spec _ fmt j he
      have hlenj : j < fmt.length := (List.getElem?_eq_some.mp hg).1
      have h1 := constrain_of_none text.length Position.startIndex fmt hs
      have h2 := constrain_of_some text.length Position.endIndex fmt j g he hg
      rw [make_eq_of text fmt fmt _ none _ h1 h2]
      simp only []
      rw [List.getElem?_set]
      by_cases hn : j = n
      · subst hn
        simp [hlenj, hg]
      · simp [hn, fun h : (n : Nat) = j => hn h.symm]
  · obtain ⟨⟨f, hf, hpf⟩, -⟩ := firstIdx?_spec _ fmt i hs
    have hleni : i < fmt.length := (List.getElem?_eq_some.mp hf).1
    have h1 := constrain_of_some text.length Position.startIndex fmt i f hs hf
    have hcong := firstIdx?_offends_constrain_other text.length Position.startIndex fmt
    simp only [Position.other] at hcong
    rw [h1] at hcong
    simp only [] at hcong
    rcases he : firstIdx? (offends text.length Position.endIndex) fmt with _ | j
    · rw [he] at hcong
      have h2 := constrain_of_none text.length Position.endIndex _ hcong
      rw [make_eq_of text fmt _ _ _ none h1 h2]
      simp only []
      rw [List.getElem?_set]
      by_cases hn : i = n
      · subst hn
        simp [hleni, hf]
      · simp [hn, fun h : (n : Nat) = i => hn h.symm]
    · rw [he] at hcong
      by_cases hij : i = j
      · subst hij
        have hget2 : (fmt.set i (f.setPos Position.startIndex (text.length : Int)))[i]? =
            some (f.setPos Position.startIndex (text.length : Int)) := by
          rw [List.getElem?_set]
          simp [hleni]
        have h2 := constrain_of_some text.length Position.endIndex _ i _ hcong hget2
        rw [make_eq_of text fmt _ _ _ _ h1 h2]
        simp only [List.set_set]
        rw [List.getElem?_set]
        by_cases hn : i = n
        · subst hn
          simp [hleni, hf]
        · simp [hn, fun h : (n : Nat) = i => hn h.symm]
      · have hget2 : (fmt.set i (f.setPos Position.startIndex (text.length : Int)))[j]? =
            fmt[j]? := by
          rw [List.getElem?_set]
          simp [hij]
        obtain ⟨⟨g, hg, hpg⟩, -⟩ := firstIdx?_spec _ fmt j he
        have hlenj : j < fmt.length := (List.getElem?_eq_some.mp hg).1
        have hget3 : (fmt.set i (f.setPos Position.startIndex (text.length : Int)))[j]? =
            some g := by rw [hget2]; exact hg
        have h2 := constrain_of_some text.length Position.endIndex _ j g hcong hget3
        rw [make_eq_of text fmt _ _ _ _ h1 h2]
        simp only []
        rw [List.getElem?_set, List.getElem?_set, List.length_set]
        by_cases hn1 : j = n
        · subst hn1
          have hni : ¬ i = j := hij
          simp [hni, hlenj, hg, fun h : (j : Nat) = i => hij h.symm]
        · by_cases hn2 : i = n
          · subst hn2
            simp [hn1, hleni, hf, fun h : (i : Nat) = j => hij h,
              fun h : (j : Nat) = i => hij h.symm]
          · simp [hn1, hn2, fun h : (n : Nat) = j => hn1 h.symm,
              fun h : (n : Nat) = i => hn2 h.symm]

theorem make_snd (text : String) (fmt : List FormattingElement) :
    (TextContainer.make text fmt).2 =
      ((fmt.find? (offends text.length Position.startIndex)).map
        (fun f => warnMessage f.tag Position.startIndex)).toList ++
      ((fmt.find? (offends text.length Position.endIndex)).map
        (fun f => warnMessage f.tag Position.endIndex)).toList := by
  rcases hs : firstIdx? (offends text.length Position.startIndex) fmt with _ | i
  · rcases he : firstIdx? (offends text.length Position.endIndex) fmt with _ | j
    · have h1 := constrain_of_none text.length Position.startIndex fmt hs
      have h2 := constrain_of_none text.length Position.endIndex fmt he
      rw [make_eq_of text fmt fmt fmt none none h1 h2]
      simp [find?_eq_firstIdx?, hs, he]
    · obtain ⟨⟨g, hg, hpg⟩, -⟩ := firstIdx?_spec _ fmt j he
      have h1 := constrain_of_none text.length Position.startIndex fmt hs
      have h2 := constrain_of_some text.length Position.endIndex fmt j g he hg
      rw [make_eq_of text fmt fmt _ none _ h1 h2]
      simp [find?_eq_firstIdx?, hs, he, hg]
  · obtain ⟨⟨f, hf, hpf⟩, -⟩ := firstIdx?_spec _ fmt i hs
    have hleni : i < fmt.length := (List.getElem?_eq_some.mp hf).1
    have h1 := constrain_of_some text.length Position.startIndex fmt i f hs hf
    have hcong := firstIdx?_offends_constrain_other text.length Position.startIndex fmt
    simp only [Position.other] at hcong
    rw [h1] at hcong
    simp only [] at hcong
    rcases he : firstIdx? (offends text.length Position.endIndex) fmt with _ | j
    · rw [he] at hcong
      have h2 := constrain_of_none text.length Position.endIndex _ hcong
      rw [make_eq_of text fmt _ _ _ none h1 h2]
      simp [find?_eq_firstIdx?, hs, he, hf]
    · rw [he] at hcong
      by_cases hij : i = j
      · subst hij
        have hget2 : (fmt.set i (f.setPos Position.startIndex (text.length : Int)))[i]? =
            some (f.setPos Position.startIndex (text.length : Int)) := by
          rw [List.getElem?_set]
          simp [hleni]
        have h2 := constrain_of_some text.length Position.endIndex _ i _ hcong hget2
        rw [make_eq_of text fmt _ _ _ _ h1 h2]
        simp [find?_eq_firstIdx?, hs, he, hf]
      · have hget2 : (fmt.set i (f.setPos Position.startIndex (text.length : Int)))[j]? =
            fmt[j]? := by
          rw [List.getElem?_set]
          simp [hij]
        obtain ⟨⟨g, hg, hpg⟩, -⟩ := firstIdx?_spec _ fmt j he
        have hget3 : (fmt.set i (f.setPos Position.startIndex (text.length : Int)))[j]? =
            some g := by rw [hget2]; exact hg
        have h2 := constrain_of_some text.length Position.endIndex _ j g hcong hget3
        rw [make_eq_of text fmt _ _ _ _ h1 h2]
        simp [find?_eq_firstIdx?, hs, he, hf, hg]

@[simp]
theorem FormattingElement.setPos_start_pos_end (f : FormattingElement) (v : Int) :
    (f.setPos Position.startIndex v).pos Position.endIndex = f.pos Position.endIndex := rfl

@[simp]
theorem FormattingElement.setPos_end_pos_start (f : FormattingElement) (v : Int) :
    (f.setPos Position.endIndex v).pos Position.startIndex = f.pos Position.startIndex := rfl

@[simp]
theorem FormattingElement.setPos_start_startIndex (f : FormattingElement) (v : Int) :
    (f.setPos Position.startIndex v).startIndex = v := rfl

@[simp]
theorem FormattingElement.setPos_start_endIndex (f : FormattingElement) (v : Int) :
    (f.setPos Position.startIndex v).endIndex = f.endIndex := rfl

@[simp]
theorem FormattingElement.setPos_end_endIndex (f : FormattingElement) (v : Int) :
    (f.setPos Position.endIndex v).endIndex = v := rfl

@[simp]
theorem FormattingElement.setPos_end_startIndex (f : FormattingElement) (v : Int) :
    (f.setPos Position.endIndex v).startIndex = f.startIndex := rfl

theorem make_pos_value (text : String) (fmt : List FormattingElement) (position : Position)
    (n : Nat) :
    (((TextContainer.make text fmt).1.formatting)[n]?).map (fun f => f.pos position) =
      if firstIdx? (offends text.length position) fmt = some n then
        (fmt[n]?).map (fun _ => (text.length : Int))
      else (fmt[n]?).map (fun f => f.pos position) := by
  rw [make_formatting_getElem?]
  rcases hn : fmt[n]? with _ | f
  · simp
  · cases position with
    | startIndex =>
      by_cases hs : firstIdx? (offends text.length Position.startIndex) fmt = some n
      · by_cases he : firstIdx? (offends text.length Position.endIndex) fmt = some n
        · simp [hs, he]
        · simp [hs, he]
      · by_cases he : firstIdx? (offends text.length Position.endIndex) fmt = some n
        · simp [hs, he]
        · simp [hs, he]
    | endIndex =>
      by_cases hs : firstIdx? (offends text.length Position.startIndex) fmt = some n
      · by_cases he : firstIdx? (offends text.length Position.endIndex) fmt = some n
        · simp [hs, he]
        · simp [hs, he]
      · by_cases he : firstIdx? (offends text.length Position.endIndex) fmt = some n
        · simp [hs, he]
        · simp [hs, he]

theorem not_offends_of_firstIdx?_ne (L : Nat) (position : Position)
    (fmt : List FormattingElement) (n : Nat) (g : FormattingElement)
    (hget : fmt[n]? = some g)
    (huniq : ∀ i j (hi : i < fmt.length) (hj : j < fmt.length),
      (fmt.get ⟨i, hi⟩).pos position > (L : Int) →
      (fmt.get ⟨j, hj⟩).pos position > (L : Int) → i = j)
    (hne : firstIdx? (offends L position) fmt ≠ some n) :
    g.pos position ≤ (L : Int) := by
  by_contra hgt
  push_neg at hgt
  obtain ⟨k, hk, -⟩ := exists_firstIdx?_le (offends L position) fmt n g hget
    (by simpa [offends] using hgt)
  obtain ⟨⟨m, hm, hpm⟩, -⟩ := firstIdx?_spec (offends L position) fmt k hk
  have hkl : k < fmt.length := (List.getElem?_eq_some.mp hm).1
  have hnl : n < fmt.length := (List.getElem?_eq_some.mp hget).1
  have hmk : fmt.get ⟨k, hkl⟩ = m := (List.getElem?_eq_some.mp hm).2
  have hgn : fmt.get ⟨n, hnl⟩ = g := (List.getElem?_eq_some.mp hget).2
  have hkn : k = n := by
    apply huniq k n hkl hnl
    · rw [hmk]
      simpa [offends] using hpm
    · rw [hgn]
      exact hgt
  exact hne (hkn ▸ hk)

theorem changed_imp_firstIdx? (text : String) (fmt : List FormattingElement)
    (position : Position) (i : Nat)
    (h : (((TextContainer.make text fmt).1.formatting)[i]?).map (fun f => f.pos position) ≠
      (fmt[i]?).map (fun f => f.pos position)) :
    firstIdx? (offends text.length position) fmt = some i := by
  by_contra hne
  rw [make_pos_value, if_neg hne] at h
  exact h rfl

/-! ### Claims -/

/-- C1, counterexample: with `text = ""` and exactly one span (`"a"`) having
`startIndex > length(text)`, construction nevertheless changes another span
(`"b"`, whose `endIndex` gets clamped by the independent `endIndex` pass), so
the claim that every other span is unchanged fails as stated. -/
theorem C1_counterexample :
    (([⟨"a", 5, 0, []⟩, ⟨"b", 0, 7, []⟩] : List FormattingElement).filter
      (fun f => decide (f.startIndex > ("".length : Int)))).length = 1 ∧
    ([⟨"a", 5, 0, []⟩, ⟨"b", 0, 7, []⟩] : List FormattingElement)[1]? =
      some ⟨"b", 0, 7, []⟩ ∧
    ((TextContainer.make "" [⟨"a", 5, 0, []⟩, ⟨"b", 0, 7, []⟩]).1.formatting)[1]? ≠
      some ⟨"b", 0, 7, []⟩ := by
  decide

/-- C1, amended: for any text, any position attribute, and a formatting
collection in which exactly one span offends at that attribute and no span
offends at the other attribute, construction sets the offending span's value
at that attribute to `length(text)` and leaves every other span unchanged. -/
theorem C1_claim (text : String) (fmt : List FormattingElement) (position : Position)
    (i : Nat) (h1 : i < fmt.length)
    (h2 : (fmt.get ⟨i, h1⟩).pos position > (text.length : Int))
    (h3 : ∀ j (hj : j < fmt.length), j ≠ i →
      ¬ (fmt.get ⟨j, hj⟩).pos position > (text.length : Int))
    (h4 : ∀ f ∈ fmt, f.pos position.other ≤ (text.length : Int)) :
    (TextContainer.make text fmt).1.formatting =
      fmt.set i ((fmt.get ⟨i, h1⟩).setPos position (text.length : Int)) := by
  have hget : fmt[i]? = some (fmt.get ⟨i, h1⟩) := by
    rw [List.getElem?_eq_some]
    exact ⟨h1, rfl⟩
  have hsome : firstIdx? (offends text.length position) fmt = some i := by
    obtain ⟨k, hk, hle⟩ := exists_firstIdx?_le (offends text.length position) fmt i _ hget
      (by simpa [offends] using h2)
    rcases Nat.eq_or_lt_of_le hle with heq | hlt
    · rwa [heq] at hk
    · exfalso
      obtain ⟨⟨g, hg, hpg⟩, -⟩ := firstIdx?_spec (offends text.length position) fmt k hk
      have hkl : k < fmt.length := (List.getElem?_eq_some.mp hg).1
      apply h3 k hkl (by omega)
      rw [List.get_eq_getElem, (List.getElem?_eq_some.mp hg).2]
      simpa [offends] using hpg
  have hnone : firstIdx? (offends text.length position.other) fmt = none := by
    rw [firstIdx?_eq_none_iff]
    intro f hf
    simp only [offends, decide_eq_false_iff_not, not_lt]
    exact h4 f hf
  apply List.ext_getElem?
  intro n
  rw [make_formatting_getElem?, List.getElem?_set]
  cases position with
  | startIndex =>
    simp only [Position.other] at hnone
    rw [hsome, hnone]
    by_cases hn : i = n
    · subst hn
      simp [hget, h1]
    · simp [hn, fun h : (n : Nat) = i => hn h.symm]
  | endIndex =>
    simp only [Position.other] at hnone
    rw [hsome, hnone]
    by_cases hn : i = n
    · subst hn
      simp [hget, h1]
    · simp [hn, fun h : (n : Nat) = i => hn h.symm]

/-- C1, witness: the amended claim applied to `text = ""` and spans
`[("a", 5, 0), ("b", 0, 0)]`, whose only `startIndex` offender is span 0. -/
theorem C1_witness :
    (TextContainer.make "" [⟨"a", 5, 0, []⟩, ⟨"b", 0, 0, []⟩]).1.formatting =
      [⟨"a", 0, 0, []⟩, ⟨"b", 0, 0, []⟩] := by
  have h := C1_claim "" [⟨"a", 5, 0, []⟩, ⟨"b", 0, 0, []⟩] Position.startIndex 0
    (by decide) (by decide) (by decide) (by decide)
  rw [h]
  decide

/-- C2, counterexample: with `text = ""` and spans
`[("a", -1, 0), ("b", 5, 0), ("c", 7, 0)]`, the constructed entity violates
the claimed invariant: span `"a"` keeps its negative `startIndex` and span
`"c"` keeps `startIndex = 7 > 0` (only the first offender `"b"` is fixed). -/
theorem C2_counterexample :
    ¬ ∀ f ∈ (TextContainer.make ""
        [⟨"a", -1, 0, []⟩, ⟨"b", 5, 0, []⟩, ⟨"c", 7, 0, []⟩]).1.formatting,
      0 ≤ f.startIndex ∧ f.startIndex ≤ ("".length : Int) ∧
        0 ≤ f.endIndex ∧ f.endIndex ≤ ("".length : Int) := by
  decide

/-- C2, amended: if every span of the input has non-negative offsets and, for
each of the two attributes, at most one span exceeds `length(text)` at that
attribute, then after construction every span satisfies
`0 <= startIndex <= length(text)` and `0 <= endIndex <= length(text)`. -/
theorem C2_claim (text : String) (fmt : List FormattingElement)
    (hnn : ∀ f ∈ fmt, 0 ≤ f.startIndex ∧ 0 ≤ f.endIndex)
    (hs1 : ∀ i j (hi : i < fmt.length) (hj : j < fmt.length),
      (fmt.get ⟨i, hi⟩).startIndex > (text.length : Int) →
      (fmt.get ⟨j, hj⟩).startIndex > (text.length : Int) → i = j)
    (he1 : ∀ i j (hi : i < fmt.length) (hj : j < fmt.length),
      (fmt.get ⟨i, hi⟩).endIndex > (text.length : Int) →
      (fmt.get ⟨j, hj⟩).endIndex > (text.length : Int) → i = j) :
    ∀ f ∈ (TextContainer.make text fmt).1.formatting,
      0 ≤ f.startIndex ∧ f.startIndex ≤ (text.length : Int) ∧
        0 ≤ f.endIndex ∧ f.endIndex ≤ (text.length : Int) := by
  intro f hf
  obtain ⟨n, hn⟩ := List.mem_iff_getElem?.mp hf
  have hsv := make_pos_value text fmt Position.startIndex n
  have hev := make_pos_value text fmt Position.endIndex n
  rw [hn] at hsv hev
  have hL : (0 : Int) ≤ (text.length : Int) := Int.ofNat_nonneg _
  rcases hg : fmt[n]? with _ | g
  · rw [hg] at hsv
    simp at hsv
  · have hgmem : g ∈ fmt := by
      rw [List.mem_iff_getElem?]
      exact ⟨n, hg⟩
    have hgs := (hnn g hgmem).1
    have hge := (hnn g hgmem).2
    rw [hg] at hsv hev
    constructor
    · -- 0 ≤ f.startIndex
      by_cases hc : firstIdx? (offends text.length Position.startIndex) fmt = some n
      · rw [if_pos hc] at hsv
        simp at hsv
        simp only [show f.startIndex = f.pos Position.startIndex from rfl, hsv]
        exact hL
      · rw [if_neg hc] at hsv
        simp at hsv
        simp only [show f.startIndex = f.pos Position.startIndex from rfl, hsv]
        exact hgs
    constructor
    · -- f.startIndex ≤ length
      by_cases hc : firstIdx? (offends text.length Position.startIndex) fmt = some n
      · rw [if_pos hc] at hsv
        simp at hsv
        simp only [show f.startIndex = f.pos Position.startIndex from rfl, hsv]
        exact le_refl _
      · rw [if_neg hc] at hsv
        simp at hsv
        simp only [show f.startIndex = f.pos Position.startIndex from rfl, hsv]
        exact not_offends_of_firstIdx?_ne text.length Position.startIndex fmt n g hg hs1 hc
    constructor
    · -- 0 ≤ f.endIndex
      by_cases hc : firstIdx? (offends text.length Position.endIndex) fmt = some n
      · rw [if_pos hc] at hev
        simp at hev
        simp only [show f.endIndex = f.pos Position.endIndex from rfl, hev]
        exact hL
      · rw [if_neg hc] at hev
        simp at hev
        simp only [show f.endIndex = f.pos Position.endIndex from rfl, hev]
        exact hge
    · -- f.endIndex ≤ length
      by_cases hc : firstIdx? (offends text.length Position.endIndex) fmt = some n
      · rw [if_pos hc] at hev
        simp at hev
        simp only [show f.endIndex = f.pos Position.endIndex from rfl, hev]
        exact le_refl _
      · rw [if_neg hc] at hev
        simp at hev
        simp only [show f.endIndex = f.pos Position.endIndex from rfl, hev]
        exact not_offends_of_firstIdx?_ne text.length Position.endIndex fmt n g hg he1 hc

/-- C2, witness: the amended claim applied to `text = "a"` with the single
span `("t", 0, 5)`, whose `endIndex` is the one offender and gets clamped. -/
theorem C2_witness :
    0 ≤ (⟨"t", 0, 1, []⟩ : FormattingElement).startIndex ∧
      (⟨"t", 0, 1, []⟩ : FormattingElement).startIndex ≤ ("a".length : Int) ∧
      0 ≤ (⟨"t", 0, 1, []⟩ : FormattingElement).endIndex ∧
      (⟨"t", 0, 1, []⟩ : FormattingElement).endIndex ≤ ("a".length : Int) := by
  apply C2_claim "a" [⟨"t", 0, 5, []⟩]
  · decide
  · intro i j hi hj _ _
    simp at hi hj
    omega
  · intro i j hi hj _ _
    simp at hi hj
    omega
  · decide

/-- C3: when the span at index `i` is the first (in collection order) whose
value at the given position attribute exceeds `length(text)`, and some other
span at index `j` also exceeds it, construction sets span `i`'s value at that
attribute to `length(text)` while every span other than `i` keeps its
original value at that attribute (in particular, every later offender stays
out of bounds). Holds per attribute, for `startIndex` and `endIndex` alike. -/
theorem C3_claim (text : String) (fmt : List FormattingElement) (position : Position)
    (i j : Nat) (hfirst : firstIdx? (offends text.length position) fmt = some i)
    (hj : j < fmt.length) (hij : j ≠ i)
    (hoff : (fmt.get ⟨j, hj⟩).pos position > (text.length : Int)) :
    (((TextContainer.make text fmt).1.formatting)[i]?).map (fun f => f.pos position) =
      some (text.length : Int) ∧
    ∀ k, k ≠ i →
      (((TextContainer.make text fmt).1.formatting)[k]?).map (fun f => f.pos position) =
        (fmt[k]?).map (fun f => f.pos position) := by
  constructor
  · rw [make_pos_value, if_pos hfirst]
    obtain ⟨⟨f, hf, -⟩, -⟩ := firstIdx?_spec (offends text.length position) fmt i hfirst
    simp [hf]
  · intro k hk
    rw [make_pos_value, if_neg]
    rw [hfirst]
    simp
    exact fun h => hk h.symm

/-- C3, witness: the claim applied to `text = ""` with the two `startIndex`
offenders `("a", 5, 0)` and `("b", 7, 0)`: span 0 is clamped to `0`, span 1
keeps its out-of-bounds `startIndex = 7`. -/
theorem C3_witness :
    (((TextContainer.make "" [⟨"a", 5, 0, []⟩, ⟨"b", 7, 0, []⟩]).1.formatting)[0]?).map
        (fun f => f.pos Position.startIndex) = some 0 ∧
    (((TextContainer.make "" [⟨"a", 5, 0, []⟩, ⟨"b", 7, 0, []⟩]).1.formatting)[1]?).map
        (fun f => f.pos Position.startIndex) = some 7 := by
  have h := C3_claim "" [⟨"a", 5, 0, []⟩, ⟨"b", 7, 0, []⟩] Position.startIndex 0 1
    (by decide) (by decide) (by decide) (by decide)
  refine ⟨h.1, ?_⟩
  rw [h.2 1 (by decide)]
  decide

/-- C4: if every span of the input already satisfies
`0 <= startIndex <= length(text)` and `0 <= endIndex <= length(text)`, then
construction returns the formatting collection unchanged and emits no
diagnostic. -/
theorem C4_claim (text : String) (fmt : List FormattingElement)
    (h : ∀ f ∈ fmt, 0 ≤ f.startIndex ∧ f.startIndex ≤ (text.length : Int) ∧
      0 ≤ f.endIndex ∧ f.endIndex ≤ (text.length : Int)) :
    TextContainer.make text fmt = (⟨text, fmt⟩, []) := by
  have hs : firstIdx? (offends text.length Position.startIndex) fmt = none := by
    rw [firstIdx?_eq_none_iff]
    intro f hf
    simp only [offends, decide_eq_false_iff_not, not_lt]
    exact (h f hf).2.1
  have he : firstIdx? (offends text.length Position.endIndex) fmt = none := by
    rw [firstIdx?_eq_none_iff]
    intro f hf
    simp only [offends, decide_eq_false_iff_not, not_lt]
    exact (h f hf).2.2.2
  have := make_eq_of text fmt fmt fmt none none
    (constrain_of_none text.length Position.startIndex fmt hs)
    (constrain_of_none text.length Position.endIndex fmt he)
  simpa using this

/-- C4, witness: the no-correction scenario of the spec, `text = "Hello
world"` with the in-bounds span `("em", 0, 5)`. -/
theorem C4_witness :
    TextContainer.make "Hello world" [⟨"em", 0, 5, []⟩] =
      (⟨"Hello world", [⟨"em", 0, 5, []⟩]⟩, []) :=
  C4_claim "Hello world" [⟨"em", 0, 5, []⟩] (by decide)

/-- C5: the two correction passes are independent: the sequence of
`startIndex` values of the constructed formatting collection is a function
(`clampFirst`) of the input `startIndex` values alone, and likewise for
`endIndex`; in particular (concrete conjunct) a span can get exactly one of
its two attributes corrected when only that one exceeds `length(text)`. -/
theorem C5_claim :
    (∀ (text : String) (fmt : List FormattingElement),
      ((TextContainer.make text fmt).1.formatting).map (fun f => f.startIndex) =
        clampFirst text.length (fmt.map (fun f => f.startIndex)) ∧
      ((TextContainer.make text fmt).1.formatting).map (fun f => f.endIndex) =
        clampFirst text.length (fmt.map (fun f => f.endIndex))) ∧
    (TextContainer.make "x" [⟨"a", 5, 1, []⟩]).1.formatting = [⟨"a", 1, 1, []⟩] := by
  constructor
  · intro text fmt
    constructor
    · have e1 := constrain_map_pos_other text.length Position.endIndex
        ((constrainFormatElementPositionsToEnd text.length Position.startIndex fmt).1)
      have e2 := constrain_map_pos_self text.length Position.startIndex fmt
      exact e1.trans e2
    · have e3 := constrain_map_pos_self text.length Position.endIndex
        ((constrainFormatElementPositionsToEnd text.length Position.startIndex fmt).1)
      have e4 := constrain_map_pos_other text.length Position.startIndex fmt
      exact e3.trans (congrArg (clampFirst text.length) e4)
  · decide

set_option maxRecDepth 40000 in
/-- C6: the list of emitted diagnostics is exactly one message per
correction (the first `startIndex` offender found, then the first `endIndex`
offender found), so a diagnostic is produced iff a correction occurs; and
each message contains the corrected span's tag, the corrected attribute's
name, and the statement that it was set to the end of the text. -/
theorem C6_claim (text : String) (fmt : List FormattingElement) :
    (TextContainer.make text fmt).2 =
      ((fmt.find? (offends text.length Position.startIndex)).map
        (fun f => warnMessage f.tag Position.startIndex)).toList ++
      ((fmt.find? (offends text.length Position.endIndex)).map
        (fun f => warnMessage f.tag Position.endIndex)).toList ∧
    ((TextContainer.make text fmt).2 ≠ [] ↔
      ∃ f ∈ fmt, f.startIndex > (text.length : Int) ∨
        f.endIndex > (text.length : Int)) ∧
    ∀ (tag : String) (position : Position),
      tag.data <:+: (warnMessage tag position).data ∧
      (position.name).data <:+: (warnMessage tag position).data ∧
      ("set to the end of the text").data <:+: (warnMessage tag position).data := by
  refine ⟨make_snd text fmt, ?_, ?_⟩
  · rw [make_snd]
    constructor
    · intro hne
      rcases h1 : fmt.find? (offends text.length Position.startIndex) with _ | f1
      · rcases h2 : fmt.find? (offends text.length Position.endIndex) with _ | f2
        · rw [h1, h2] at hne
          simp at hne
        · exact ⟨f2, List.mem_of_find?_eq_some h2,
            Or.inr (by simpa [offends] using List.find?_some h2)⟩
      · exact ⟨f1, List.mem_of_find?_eq_some h1,
          Or.inl (by simpa [offends] using List.find?_some h1)⟩
    · rintro ⟨f, hf, hor⟩
      rcases h1 : fmt.find? (offends text.length Position.startIndex) with _ | f1
      · rcases h2 : fmt.find? (offends text.length Position.endIndex) with _ | f2
        · exfalso
          rcases hor with h | h
          · have hno := List.find?_eq_none.mp h1 f hf
            simp only [offends, decide_eq_true_eq, not_lt] at hno
            exact absurd h (not_lt.mpr hno)
          · have hno := List.find?_eq_none.mp h2 f hf
            simp only [offends, decide_eq_true_eq, not_lt] at hno
            exact absurd h (not_lt.mpr hno)
        · simp [h1, h2]
      · simp [h1]
  · intro tag position
    refine ⟨⟨"\x27".data,
        ("\x27 element\x27s " ++ position.name ++
          " position larger than text. It has been set to the end of the text instead.").data,
        ?_⟩,
      ⟨("\x27" ++ tag ++ "\x27 element\x27s ").data,
        (" position larger than text. It has been set to the end of the text instead.").data,
        ?_⟩, ?_⟩
    · simp [warnMessage, String.data_append]
    · simp [warnMessage, String.data_append]
    · have h1 : ("set to the end of the text").data <:+:
          (" position larger than text. It has been set to the end of the text instead.").data := by
        decide
      have h2 : (" position larger than text. It has been set to the end of the text instead.").data <:+:
          (warnMessage tag position).data :=
        ⟨("\x27" ++ tag ++ "\x27 element\x27s " ++ position.name).data, [],
          by simp [warnMessage, String.data_append]⟩
      exact h1.trans h2

/-- C6, witness: a concrete construction (`text = "ab"`, one span with
`endIndex = 9 > 2`) whose diagnostic list is computed via the claim. -/
theorem C6_witness :
    (TextContainer.make "ab" [⟨"em", 0, 9, []⟩]).2 =
      [warnMessage "em" Position.endIndex] := by
  have h := (C6_claim "ab" [⟨"em", 0, 9, []⟩]).1
  rw [h]
  decide

/-- C7, counterexample: for `text = ""` with the two `startIndex` offenders
`("a", 5, 0)` and `("b", 7, 0)`, span `"b"` has `startIndex = 7 > 0` in the
input yet retains exactly that out-of-bounds value `7` after construction,
so not every offending span is clamped to `0` as the claim states. -/
theorem C7_counterexample :
    (([⟨"a", 5, 0, []⟩, ⟨"b", 7, 0, []⟩] : List FormattingElement)[1]?).map
        (fun f => f.startIndex) = some 7 ∧
    (7 : Int) > 0 ∧
    (((TextContainer.make "" [⟨"a", 5, 0, []⟩, ⟨"b", 7, 0, []⟩]).1.formatting)[1]?).map
        (fun f => f.startIndex) = some 7 ∧
    ¬ (((TextContainer.make "" [⟨"a", 5, 0, []⟩, ⟨"b", 7, 0, []⟩]).1.formatting)[1]?).map
        (fun f => f.startIndex) = some 0 := by
  decide

/-- C7, amended: for the empty text, the first span (in collection order)
whose value at a given position attribute is positive has that attribute
clamped to `0` in the constructed entity, while every other span — in
particular every later offender — retains its original value at that
attribute; this holds per attribute. -/
theorem C7_claim (fmt : List FormattingElement) (position : Position) (i : Nat)
    (h : firstIdx? (offends 0 position) fmt = some i) :
    (((TextContainer.make "" fmt).1.formatting)[i]?).map (fun f => f.pos position) =
      some 0 ∧
    ∀ k, k ≠ i →
      (((TextContainer.make "" fmt).1.formatting)[k]?).map (fun f => f.pos position) =
        (fmt[k]?).map (fun f => f.pos position) := by
  have h2 : firstIdx? (offends "".length position) fmt = some i := h
  constructor
  · rw [make_pos_value, if_pos h2]
    obtain ⟨⟨f, hf, -⟩, -⟩ := firstIdx?_spec (offends "".length position) fmt i h2
    simp [hf]
  · intro k hk
    rw [make_pos_value, if_neg]
    rw [h2]
    simp
    exact fun hik => hk hik.symm

/-- C7, witness: the amended claim at the two spans `("a", 3, 0)` and
`("b", 7, 0)` with positive `startIndex`: the first is clamped to `0`, the
later offender retains its original value `7`. -/
theorem C7_witness :
    (((TextContainer.make "" [⟨"a", 3, 0, []⟩, ⟨"b", 7, 0, []⟩]).1.formatting)[0]?).map
        (fun f => f.pos Position.startIndex) = some 0 ∧
    (((TextContainer.make "" [⟨"a", 3, 0, []⟩, ⟨"b", 7, 0, []⟩]).1.formatting)[1]?).map
        (fun f => f.pos Position.startIndex) = some 7 := by
  have h := C7_claim [⟨"a", 3, 0, []⟩, ⟨"b", 7, 0, []⟩] Position.startIndex 0 (by decide)
  refine ⟨h.1, ?_⟩
  rw [h.2 1 (by decide)]
  decide

set_option maxRecDepth 4000 in
/-- C8, counterexample: the spec's scenario text `"This text is very
strong."` has length 25, not 26, so the clamped `endIndex` is 25 and not 26
as the claim states. -/
theorem C8_counterexample :
    "This text is very strong.".length = 25 ∧
    (((TextContainer.make "This text is very strong."
        [⟨"strong", 13, 99, [("id", "elem-id")]⟩]).1.formatting)[0]?).map
      (fun f => f.endIndex) = some 25 ∧
    ¬ (((TextContainer.make "This text is very strong."
        [⟨"strong", 13, 99, [("id", "elem-id")]⟩]).1.formatting)[0]?).map
      (fun f => f.endIndex) = some 26 := by
  refine ⟨by decide, by decide, by decide⟩

set_option maxRecDepth 40000 in
/-- C8, amended: constructing from `text = "This text is very strong."`
(length 25) and `formatting = [{tag: "strong", startIndex: 13, endIndex: 99,
attributes: {id: "elem-id"}}]` yields `endIndex = 25` (the text length),
`startIndex = 13` unchanged, and exactly one diagnostic mentioning
`"strong"` and `"endIndex"`. -/
theorem C8_claim :
    (TextContainer.make "This text is very strong."
        [⟨"strong", 13, 99, [("id", "elem-id")]⟩]).1.formatting =
      [⟨"strong", 13, 25, [("id", "elem-id")]⟩] ∧
    (TextContainer.make "This text is very strong."
        [⟨"strong", 13, 99, [("id", "elem-id")]⟩]).2 =
      [warnMessage "strong" Position.endIndex] ∧
    "strong".data <:+: (warnMessage "strong" Position.endIndex).data ∧
    "endIndex".data <:+: (warnMessage "strong" Position.endIndex).data := by
  refine ⟨by decide, by decide, by decide, by decide⟩

/-- C9: a span whose value at a position attribute is negative never exceeds
the (non-negative) text length, so construction leaves that attribute's
value unmodified and that span is not the one the corresponding correction
pass finds (it triggers no diagnostic for that attribute). -/
theorem C9_claim (text : String) (fmt : List FormattingElement) (position : Position)
    (i : Nat) (f : FormattingElement) (hget : fmt[i]? = some f)
    (hneg : f.pos position < 0) :
    (((TextContainer.make text fmt).1.formatting)[i]?).map (fun g => g.pos position) =
      some (f.pos position) ∧
    firstIdx? (offends text.length position) fmt ≠ some i := by
  have hno : offends text.length position f = false := by
    simp only [offends, decide_eq_false_iff_not, not_lt]
    have h0 : (0 : Int) ≤ (text.length : Int) := Int.ofNat_nonneg _
    omega
  have hne : firstIdx? (offends text.length position) fmt ≠ some i := by
    intro hcon
    obtain ⟨⟨g, hg, hpg⟩, -⟩ := firstIdx?_spec (offends text.length position) fmt i hcon
    rw [hget] at hg
    injection hg with hg
    rw [← hg] at hpg
    rw [hno] at hpg
    exact Bool.false_ne_true hpg
  refine ⟨?_, hne⟩
  rw [make_pos_value, if_neg hne, hget]
  rfl

/-- C9, witness: the claim at `text = "ab"` with the span `("a", -5, 1)`,
whose negative `startIndex` passes through construction unmodified. -/
theorem C9_witness :
    (((TextContainer.make "ab" [⟨"a", -5, 1, []⟩]).1.formatting)[0]?).map
        (fun g => g.pos Position.startIndex) = some (-5) ∧
    firstIdx? (offends "ab".length Position.startIndex) [⟨"a", -5, 1, []⟩] ≠
      some 0 := by
  have h := C9_claim "ab" [⟨"a", -5, 1, []⟩] Position.startIndex 0 ⟨"a", -5, 1, []⟩
    (by decide) (by decide)
  exact h

/-- C10: construction changes nothing except offsets: the text is stored
unchanged, the formatting collection keeps its length and order with every
span's tag and attributes unchanged, at most one span's `startIndex` and at
most one span's `endIndex` differ from the input, and each changed value
equals `length(text)`. -/
theorem C10_claim (text : String) (fmt : List FormattingElement) :
    (TextContainer.make text fmt).1.text = text ∧
    ((TextContainer.make text fmt).1.formatting).length = fmt.length ∧
    ((TextContainer.make text fmt).1.formatting).map FormattingElement.tag =
      fmt.map FormattingElement.tag ∧
    ((TextContainer.make text fmt).1.formatting).map FormattingElement.attributes =
      fmt.map FormattingElement.attributes ∧
    (∀ i j : Nat,
      (((TextContainer.make text fmt).1.formatting)[i]?).map (fun f => f.startIndex) ≠
        (fmt[i]?).map (fun f => f.startIndex) →
      (((TextContainer.make text fmt).1.formatting)[j]?).map (fun f => f.startIndex) ≠
        (fmt[j]?).map (fun f => f.startIndex) → i = j) ∧
    (∀ i j : Nat,
      (((TextContainer.make text fmt).1.formatting)[i]?).map (fun f => f.endIndex) ≠
        (fmt[i]?).map (fun f => f.endIndex) →
      (((TextContainer.make text fmt).1.formatting)[j]?).map (fun f => f.endIndex) ≠
        (fmt[j]?).map (fun f => f.endIndex) → i = j) ∧
    (∀ i : Nat,
      (((TextContainer.make text fmt).1.formatting)[i]?).map (fun f => f.startIndex) ≠
        (fmt[i]?).map (fun f => f.startIndex) →
      (((TextContainer.make text fmt).1.formatting)[i]?).map (fun f => f.startIndex) =
        some (text.length : Int)) ∧
    (∀ i : Nat,
      (((TextContainer.make text fmt).1.formatting)[i]?).map (fun f => f.endIndex) ≠
        (fmt[i]?).map (fun f => f.endIndex) →
      (((TextContainer.make text fmt).1.formatting)[i]?).map (fun f => f.endIndex) =
        some (text.length : Int)) := by
  refine ⟨rfl, make_formatting_length text fmt, ?_, ?_, ?_, ?_, ?_, ?_⟩
  · exact (constrain_map_tag text.length Position.endIndex
      ((constrainFormatElementPositionsToEnd text.length Position.startIndex fmt).1)).trans
      (constrain_map_tag text.length Position.startIndex fmt)
  · exact (constrain_map_attributes text.length Position.endIndex
      ((constrainFormatElementPositionsToEnd text.length Position.startIndex fmt).1)).trans
      (constrain_map_attributes text.length Position.startIndex fmt)
  · intro i j hi hj
    have h1 := changed_imp_firstIdx? text fmt Position.startIndex i hi
    have h2 := changed_imp_firstIdx? text fmt Position.startIndex j hj
    rw [h1] at h2
    exact Option.some.inj h2
  · intro i j hi hj
    have h1 := changed_imp_firstIdx? text fmt Position.endIndex i hi
    have h2 := changed_imp_firstIdx? text fmt Position.endIndex j hj
    rw [h1] at h2
    exact Option.some.inj h2
  · intro i hi
    have h1 := changed_imp_firstIdx? text fmt Position.startIndex i hi
    show (((TextContainer.make text fmt).1.formatting)[i]?).map
        (fun f => f.pos Position.startIndex) = some (text.length : Int)
    rw [make_pos_value, if_pos h1]
    obtain ⟨⟨f, hf, -⟩, -⟩ :=
      firstIdx?_spec (offends text.length Position.startIndex) fmt i h1
    simp [hf]
  · intro i hi
    have h1 := changed_imp_firstIdx? text fmt Position.endIndex i hi
    show (((TextContainer.make text fmt).1.formatting)[i]?).map
        (fun f => f.pos Position.endIndex) = some (text.length : Int)
    rw [make_pos_value, if_pos h1]
    obtain ⟨⟨f, hf, -⟩, -⟩ :=
      firstIdx?_spec (offends text.length Position.endIndex) fmt i h1
    simp [hf]

/-- C10, witness: the frame property instantiated at `text = "ab"` with one
out-of-bounds span; the text is stored unchanged. -/
theorem C10_witness :
    (TextContainer.make "ab" [⟨"x", 9, 1, []⟩]).1.text = "ab" :=
  (C10_claim "ab" [⟨"x", 9, 1, []⟩]).1
